import Mathlib

/-!
# Verification of `src/api/convert-test.py`

The script rewrites Supertest-style test source text to Hono `app.request`
style via four `re.sub` calls applied in order to one string:

1. `re.sub(r"import request from 'supertest';\n", '', content)`
2. `re.sub(r'await request\(app\.fetch as any\)\s*\.get\(([^\)]+)\)\s*\.set\(([^\)]+)\);', r'await app.request(\1, { method: "GET", headers: \2 });', content)`
3. `re.sub(r'await request\(app\.fetch as any\)\.get\(([^\)]+)\);', r'await app.request(\1, { method: "GET" });', content)`
4. `re.sub(r'await request\(app\.fetch as any\)\s*\.post\(([^\)]+)\)\s*\.set\(([^\)]+)\)\s*\.send\(([^\)]+)\);', r'await app.request(\1, { method: "POST", headers: \2, body: JSON.stringify(\3) });', content)`

Each pattern is a sequence of literals, greedy character classes `[^\)]+`
(one or more characters other than `)`), and greedy `\s*`.  For these
patterns matching at a fixed start position is deterministic and needs no
backtracking: every `[^\)]+` is immediately followed by the literal `\)`,
which the class excludes, and every `\s*` is immediately followed by the
literal `\.`, which is not a whitespace character — so shrinking a greedy
run can never repair a failed continuation.  We therefore embed each
pattern as a deterministic matcher on `List Char` returning the captures
and the remaining suffix, and embed `re.sub` as a left-to-right scan that
replaces each leftmost non-overlapping match and resumes scanning right
after it (Python's `re.sub` with `count=0`).
-/

namespace ConvertTest

/-- The character set matched by Python's `\s` on `str` patterns:
`[ \t\n\r\f\v]` together with the Unicode whitespace characters. -/
def isPySpace (c : Char) : Bool :=
  c = ' ' || c = '\t' || c = '\n' || c = '\x0b' || c = '\x0c' || c = '\r' ||
  c = '\x1c' || c = '\x1d' || c = '\x1e' || c = '\x1f' || c = '\x85' || c = '\xa0' ||
  c.val = 0x1680 || (0x2000 ≤ c.val && c.val ≤ 0x200a) ||
  c.val = 0x2028 || c.val = 0x2029 || c.val = 0x202f || c.val = 0x205f || c.val = 0x3000

/-- `c` is allowed inside a `[^\)]+` capture group: any character but `)`. -/
def notParen (c : Char) : Bool := c != ')'

/-- Match a run of literal pattern characters; on success return the
remaining suffix of the subject. -/
def lit (pat l : List Char) : Option (List Char) :=
  if pat.isPrefixOf l then some (l.drop pat.length) else none

/-- Greedy `[^…]+`-style class: the maximal run of characters satisfying
`p`, which must be nonempty.  Returns the capture and the remaining
suffix.  (Deterministic here because in every pattern the next token is a
literal excluded by the class.) -/
def cls (p : Char → Bool) (l : List Char) : Option (List Char × List Char) :=
  if (l.takeWhile p).isEmpty then none else some (l.takeWhile p, l.dropWhile p)

/-- Greedy `\s*`-style star: skip the maximal run satisfying `p`.
(Deterministic here because the next pattern token is the literal `.`,
never a whitespace character.) -/
def star (p : Char → Bool) (l : List Char) : List Char := l.dropWhile p

/-- The literal line removed by rule 1: `import request from 'supertest';`
with its trailing newline. -/
def impLine : List Char := "import request from 'supertest';\n".data

/-- The literal head shared by rules 2 and 4 (rule 3 extends it):
`await request(app.fetch as any)`. -/
def chainHead : List Char := "await request(app.fetch as any)".data

/-- Matcher for rule 1's pattern `import request from 'supertest';\n`
(a pure literal, no captures). -/
def matchImport (l : List Char) : Option (Unit × List Char) :=
  (lit impLine l).map fun r => ((), r)

/-- Matcher for rule 2's pattern
`await request\(app\.fetch as any\)\s*\.get\(([^\)]+)\)\s*\.set\(([^\)]+)\);`. -/
def matchGetSet (l : List Char) : Option ((List Char × List Char) × List Char) :=
  (lit chainHead l).bind fun l1 =>
  (lit ".get(".data (star isPySpace l1)).bind fun l2 =>
  (cls notParen l2).bind fun p1 =>
  (lit ")".data p1.2).bind fun l3 =>
  (lit ".set(".data (star isPySpace l3)).bind fun l4 =>
  (cls notParen l4).bind fun p2 =>
  (lit ");".data p2.2).map fun l5 => ((p1.1, p2.1), l5)

/-- Rule 2's replacement template
`await app.request(\1, { method: "GET", headers: \2 });`. -/
def replGetSet (caps : List Char × List Char) : List Char :=
  "await app.request(".data ++ caps.1 ++ ", \x7b method: \"GET\", headers: ".data ++
    caps.2 ++ " \x7d);".data

/-- Matcher for rule 3's pattern
`await request\(app\.fetch as any\)\.get\(([^\)]+)\);` (note: no `\s*`
anywhere — `.get` must follow the closing parenthesis immediately). -/
def matchGetOnly (l : List Char) : Option (List Char × List Char) :=
  (lit "await request(app.fetch as any).get(".data l).bind fun l1 =>
  (cls notParen l1).bind fun p1 =>
  (lit ");".data p1.2).map fun l2 => (p1.1, l2)

/-- Rule 3's replacement template `await app.request(\1, { method: "GET" });`. -/
def replGetOnly (cap : List Char) : List Char :=
  "await app.request(".data ++ cap ++ ", \x7b method: \"GET\" \x7d);".data

/-- Matcher for rule 4's pattern
`await request\(app\.fetch as any\)\s*\.post\(([^\)]+)\)\s*\.set\(([^\)]+)\)\s*\.send\(([^\)]+)\);`. -/
def matchPost (l : List Char) : Option ((List Char × List Char × List Char) × List Char) :=
  (lit chainHead l).bind fun l1 =>
  (lit ".post(".data (star isPySpace l1)).bind fun l2 =>
  (cls notParen l2).bind fun p1 =>
  (lit ")".data p1.2).bind fun l3 =>
  (lit ".set(".data (star isPySpace l3)).bind fun l4 =>
  (cls notParen l4).bind fun p2 =>
  (lit ")".data p2.2).bind fun l5 =>
  (lit ".send(".data (star isPySpace l5)).bind fun l6 =>
  (cls notParen l6).bind fun p3 =>
  (lit ");".data p3.2).map fun l7 => ((p1.1, p2.1, p3.1), l7)

/-- Rule 4's replacement template
`await app.request(\1, { method: "POST", headers: \2, body: JSON.stringify(\3) });`. -/
def replPost (caps : List Char × List Char × List Char) : List Char :=
  "await app.request(".data ++ caps.1 ++ ", \x7b method: \"POST\", headers: ".data ++
    caps.2.1 ++ ", body: JSON.stringify(".data ++ caps.2.2 ++ ") \x7d);".data

/-- One `re.sub` pass, fuel-indexed for structural recursion: scan left to
right; at each position try the matcher; on a match emit the replacement
and resume right after the match (Python's non-overlapping, leftmost
semantics), otherwise copy one character and continue.  The guard
`rest.length ≤ cs.length` only serves totality: every matcher here
consumes at least one character whenever it succeeds. -/
def subAllF {α : Type} (m : List Char → Option (α × List Char)) (r : α → List Char) :
    Nat → List Char → List Char
  | _, [] => []
  | 0, c :: cs => c :: cs
  | fuel + 1, c :: cs =>
    match m (c :: cs) with
    | some (a, rest) =>
      if rest.length ≤ cs.length then r a ++ subAllF m r fuel rest
      else c :: subAllF m r fuel cs
    | none => c :: subAllF m r fuel cs

/-- One `re.sub` pass over a character list (`fuel = length` always
suffices, since each step strictly shrinks the subject). -/
def subAll {α : Type} (m : List Char → Option (α × List Char)) (r : α → List Char)
    (l : List Char) : List Char :=
  subAllF m r l.length l

/-- `convert_test_file`, on character lists: the four `re.sub` passes in
source order (import removal, GET-with-`.set`, GET-without-`.set`,
POST-with-`.set`-and-`.send`). -/
def convertL (l : List Char) : List Char :=
  subAll matchPost replPost
    (subAll matchGetOnly replGetOnly
      (subAll matchGetSet replGetSet
        (subAll matchImport (fun _ => []) l)))

/-- The Python function `convert_test_file`. -/
def convert_test_file (s : String) : String :=
  ⟨convertL s.data⟩

/-- `true` iff the matcher succeeds at some start position of `l` —
i.e. the pattern has an occurrence in `l`. -/
def hasMatch {α : Type} (m : List Char → Option (α × List Char)) : List Char → Bool
  | [] => (m []).isSome
  | c :: cs => (m (c :: cs)).isSome || hasMatch m cs

/-- A single-line GET-with-headers chain with path text `p` and headers
text `h`: `await request(app.fetch as any).get(` p `).set(` h `);`. -/
def chainGS (p h : List Char) : List Char :=
  chainHead ++ (".get(".data ++ (p ++ (')' :: (".set(".data ++ (h ++ [')', ';'])))))

/-- Rule 2's output for a chain with path text `p` and headers text `h`. -/
def outGS (p h : List Char) : List Char := replGetSet (p, h)

/-- A GET-with-headers chain with arbitrary runs `ws1`, `ws2` (for
example line breaks and indentation) between the chained calls:
`await request(app.fetch as any)` ws1 `.get(` p `)` ws2 `.set(` h `);`.
With `ws1 = ws2 = []` this is the single-line chain `chainGS p h`. -/
def chainGSW (ws1 ws2 p h : List Char) : List Char :=
  chainHead ++ (ws1 ++ (".get(".data ++ (p ++ (')' :: (ws2 ++ (".set(".data ++ (h ++ [')', ';'])))))))

/-- A POST chain with arbitrary runs `ws1`, `ws2`, `ws3` between the
chained calls: `await request(app.fetch as any)` ws1 `.post(` p `)` ws2
`.set(` h `)` ws3 `.send(` b `);`. -/
def chainPostW (ws1 ws2 ws3 p h b : List Char) : List Char :=
  chainHead ++ (ws1 ++ (".post(".data ++ (p ++ (')' ::
    (ws2 ++ (".set(".data ++ (h ++ (')' :: (ws3 ++ (".send(".data ++ (b ++ [')', ';'])))))))))))

/-- Outcome of one run of the script's `__main__` block: the content
written to the hardcoded output path, if any, and the console line
printed, if any. -/
structure MainOutcome where
  written : Option String
  printed : Option String

/-- The `__main__` block with the file system abstracted: `input` is the
result of opening and reading the hardcoded input path (`none` when the
open or the read raises).  The block runs `open(input) / read /
convert_test_file / open(output) / write / print` in sequence, so on a
read failure it terminates before the output file is even opened —
nothing is written and nothing is printed; on success the full converted
text is written and the single confirmation line is printed. -/
def main_run (input : Option String) : MainOutcome :=
  match input with
  | none => { written := none, printed := none }
  | some content =>
      { written := some (convert_test_file content)
        printed := some "Conversion complete!" }

/-! ## Generic facts about the scan and the combinators -/

/-- `subAllF` does not depend on the fuel as long as it is at least the
length of the subject. -/
theorem subAllF_congr {α : Type} (m : List Char → Option (α × List Char)) (r : α → List Char) :
    ∀ (f₁ f₂ : Nat) (l : List Char), l.length ≤ f₁ → l.length ≤ f₂ →
      subAllF m r f₁ l = subAllF m r f₂ l := by
  intro f₁
  induction f₁ with
  | zero =>
    intro f₂ l h1 _
    have hl : l = [] := List.length_eq_zero.mp (Nat.le_zero.mp h1)
    subst hl
    cases f₂ <;> rfl
  | succ g ih =>
    intro f₂ l h1 h2
    cases l with
    | nil => cases f₂ <;> rfl
    | cons c cs =>
      cases f₂ with
      | zero => simp at h2
      | succ k =>
        simp only [List.length_cons] at h1 h2
        show subAllF m r (g + 1) (c :: cs) = subAllF m r (k + 1) (c :: cs)
        simp only [subAllF]
        cases hm : m (c :: cs) with
        | none =>
          exact congrArg (c :: ·) (ih k cs (by omega) (by omega))
        | some ar =>
          obtain ⟨a, rest⟩ := ar
          show (if rest.length ≤ cs.length then r a ++ subAllF m r g rest
                else c :: subAllF m r g cs)
              = (if rest.length ≤ cs.length then r a ++ subAllF m r k rest
                else c :: subAllF m r k cs)
          by_cases hle : rest.length ≤ cs.length
          · rw [if_pos hle, if_pos hle]
            exact congrArg (r a ++ ·) (ih k rest (by omega) (by omega))
          · rw [if_neg hle, if_neg hle]
            exact congrArg (c :: ·) (ih k cs (by omega) (by omega))

theorem subAll_cons_none {α : Type} (m : List Char → Option (α × List Char))
    (r : α → List Char) {c : Char} {cs : List Char} (h : m (c :: cs) = none) :
    subAll m r (c :: cs) = c :: subAll m r cs := by
  simp only [subAll, List.length_cons, subAllF, h]

theorem subAll_cons_some {α : Type} (m : List Char → Option (α × List Char))
    (r : α → List Char) {c : Char} {cs : List Char} {a : α} {rest : List Char}
    (h : m (c :: cs) = some (a, rest)) (hle : rest.length ≤ cs.length) :
    subAll m r (c :: cs) = r a ++ subAll m r rest := by
  simp only [subAll, List.length_cons, subAllF, h, if_pos hle]
  exact congrArg (r a ++ ·) (subAllF_congr m r cs.length rest.length rest hle le_rfl)

/-- A successful match at the head of the subject emits the replacement
and resumes after the match. -/
theorem subAll_match {α : Type} (m : List Char → Option (α × List Char))
    (r : α → List Char) {l : List Char} {a : α} {rest : List Char}
    (h : m l = some (a, rest)) (hlt : rest.length < l.length) :
    subAll m r l = r a ++ subAll m r rest := by
  cases l with
  | nil => simp at hlt
  | cons c cs =>
    exact subAll_cons_some m r h (by simp only [List.length_cons] at hlt; omega)

/-- A pass whose pattern has no occurrence anywhere is the identity. -/
theorem subAll_id_of_no_match {α : Type} (m : List Char → Option (α × List Char))
    (r : α → List Char) : ∀ {l : List Char}, hasMatch m l = false → subAll m r l = l := by
  intro l
  induction l with
  | nil => intro _; rfl
  | cons c cs ih =>
    intro h
    simp only [hasMatch, Bool.or_eq_false_iff] at h
    cases hm : m (c :: cs) with
    | some v => rw [hm] at h; simp at h
    | none => rw [subAll_cons_none m r hm, ih h.2]

/-- The scan copies verbatim any region in which no match starts, and
continues on the remainder. -/
theorem subAll_append {α : Type} (m : List Char → Option (α × List Char))
    (r : α → List Char) : ∀ (pre rest : List Char),
    (∀ i < pre.length, m (pre.drop i ++ rest) = none) →
    subAll m r (pre ++ rest) = pre ++ subAll m r rest := by
  intro pre
  induction pre with
  | nil => intro rest _; simp
  | cons c cs ih =>
    intro rest h
    have h0 : m (c :: (cs ++ rest)) = none := by
      have := h 0 (by simp)
      simpa using this
    rw [List.cons_append, subAll_cons_none m r h0]
    rw [ih rest (fun i hi => by
      have := h (i + 1) (by simp only [List.length_cons]; omega)
      simpa using this)]
    rfl

/-! ## Facts about the combinators -/

theorem isPrefixOf_append_self : ∀ (pat rest : List Char), pat.isPrefixOf (pat ++ rest) = true := by
  intro pat rest
  induction pat with
  | nil => simp [List.isPrefixOf]
  | cons a as ih => simp [List.isPrefixOf, ih]

theorem drop_len_append : ∀ (pat rest : List Char), (pat ++ rest).drop pat.length = rest := by
  intro pat rest
  induction pat with
  | nil => rfl
  | cons a as ih => simp [ih]

theorem eq_append_drop_of_isPrefixOf : ∀ {pat l : List Char}, pat.isPrefixOf l = true →
    l = pat ++ l.drop pat.length := by
  intro pat
  induction pat with
  | nil => intro l _; rfl
  | cons a as ih =>
    intro l h
    cases l with
    | nil => simp [List.isPrefixOf] at h
    | cons b bs =>
      simp only [List.isPrefixOf, Bool.and_eq_true, beq_iff_eq] at h
      obtain ⟨rfl, h2⟩ := h
      simpa using ih h2

theorem lit_append (pat rest : List Char) : lit pat (pat ++ rest) = some rest := by
  simp [lit, isPrefixOf_append_self, drop_len_append]

theorem lit_some {pat l r : List Char} (h : lit pat l = some r) : l = pat ++ r := by
  simp only [lit] at h
  split at h
  · rename_i hp
    cases h
    exact eq_append_drop_of_isPrefixOf hp
  · exact absurd h (by simp)

theorem lit_cons_single (c : Char) (X : List Char) : lit [c] (c :: X) = some X := by
  have h : c :: X = [c] ++ X := rfl
  rw [h, lit_append]

theorem takeWhile_all_append {p : Char → Bool} : ∀ (xs : List Char) {y : Char} (ys : List Char),
    (∀ x ∈ xs, p x = true) → p y = false →
    (xs ++ y :: ys).takeWhile p = xs ∧ (xs ++ y :: ys).dropWhile p = y :: ys := by
  intro xs
  induction xs with
  | nil =>
    intro y ys _ hy
    constructor <;> simp [List.takeWhile, List.dropWhile, hy]
  | cons a as ih =>
    intro y ys hall hy
    have ha : p a = true := hall a (by simp)
    have hrec := ih ys (fun x hx => hall x (by simp [hx])) hy
    constructor <;> simp [List.takeWhile, List.dropWhile, ha, hrec.1, hrec.2]

theorem cls_append {p : Char → Bool} {cap : List Char} {y : Char} (tail : List Char)
    (hne : cap ≠ []) (hall : ∀ x ∈ cap, p x = true) (hy : p y = false) :
    cls p (cap ++ y :: tail) = some (cap, y :: tail) := by
  obtain ⟨tw, dw⟩ := takeWhile_all_append cap tail hall hy
  simp only [cls, tw, dw]
  cases cap with
  | nil => exact absurd rfl hne
  | cons a as => rfl

theorem cls_some {p : Char → Bool} {l cap rest : List Char} (h : cls p l = some (cap, rest)) :
    l = cap ++ rest ∧ cap ≠ [] ∧ ∀ x ∈ cap, p x = true := by
  simp only [cls] at h
  split at h
  · exact absurd h (by simp)
  · rename_i hne
    have h1 : l.takeWhile p = cap := congrArg Prod.fst (Option.some.inj h)
    have h2 : l.dropWhile p = rest := congrArg Prod.snd (Option.some.inj h)
    refine ⟨by rw [← h1, ← h2]; exact (List.takeWhile_append_dropWhile p l).symm, ?_, ?_⟩
    · intro hcap
      rw [hcap] at h1
      rw [h1] at hne
      simp at hne
    · intro x hx
      rw [← h1] at hx
      exact List.mem_takeWhile_imp hx

theorem star_cons_neg {p : Char → Bool} {c : Char} (h : p c = false) (l : List Char) :
    star p (c :: l) = c :: l := by
  simp [star, List.dropWhile, h]

theorem star_decomp (p : Char → Bool) (l : List Char) :
    l = l.takeWhile p ++ star p l :=
  (List.takeWhile_append_dropWhile p l).symm

theorem notParen_rparen : notParen ')' = false := by decide

theorem not_paren_mem {c1 : List Char} (hall : ∀ x ∈ c1, notParen x = true) : ')' ∉ c1 := by
  intro hx
  have h := hall ')' hx
  simp [notParen] at h

theorem star_dot (X : List Char) : star isPySpace ('.' :: X) = '.' :: X :=
  star_cons_neg (by decide) X

theorem lit_nil (l : List Char) : lit [] l = some l := by
  simp [lit, List.isPrefixOf]

theorem lit_cons_cons (a : Char) (pat l : List Char) : lit (a :: pat) (a :: l) = lit pat l := by
  simp [lit, List.isPrefixOf]

/-! ## Exact behaviour of the matchers on well-formed chains -/

theorem matchImport_append (rest : List Char) :
    matchImport (impLine ++ rest) = some ((), rest) := by
  simp only [matchImport, lit_append, Option.map_some']

/-- Rule 2's matcher succeeds on a chain whose path and headers texts are
nonempty and free of `)`, consumes exactly the chain, and captures the
two argument texts. -/
theorem matchGetSet_exact (p1 h1 rest : List Char)
    (hp : p1 ≠ []) (hpAll : ∀ x ∈ p1, notParen x = true)
    (hh : h1 ≠ []) (hhAll : ∀ x ∈ h1, notParen x = true) :
    matchGetSet (chainHead ++ (".get(".data ++ (p1 ++ (')' ::
      (".set(".data ++ (h1 ++ (')' :: ';' :: rest))))))) = some ((p1, h1), rest) := by
  unfold matchGetSet
  simp only [chainHead, List.cons_append, List.nil_append, lit_cons_cons, lit_nil,
    star_dot, Option.some_bind, Option.map_some',
    cls_append _ hp hpAll notParen_rparen, cls_append _ hh hhAll notParen_rparen]

theorem chainGS_append (p h rest : List Char) :
    chainGS p h ++ rest = chainHead ++ (".get(".data ++ (p ++ (')' ::
      (".set(".data ++ (h ++ (')' :: ';' :: rest)))))) := by
  simp [chainGS, List.append_assoc]

theorem matchGetSet_chainGS {p h : List Char} (rest : List Char)
    (hp : p ≠ []) (hpa : ∀ x ∈ p, notParen x = true)
    (hh : h ≠ []) (hha : ∀ x ∈ h, notParen x = true) :
    matchGetSet (chainGS p h ++ rest) = some ((p, h), rest) := by
  rw [chainGS_append]
  exact matchGetSet_exact p h rest hp hpa hh hha

theorem chainGS_length_pos (p h : List Char) : 0 < (chainGS p h).length := by
  simp [chainGS, chainHead]

theorem len_lt_chainGS (p h rest : List Char) : rest.length < (chainGS p h ++ rest).length := by
  rw [List.length_append]
  have := chainGS_length_pos p h
  omega

theorem star_ws_dot {ws : List Char} (hws : ∀ x ∈ ws, isPySpace x = true) (X : List Char) :
    star isPySpace (ws ++ '.' :: X) = '.' :: X := by
  simp only [star]
  exact (takeWhile_all_append ws X hws (by decide)).2

theorem lit_head_ne {a b : Char} (h : a ≠ b) (pat l : List Char) :
    lit (a :: pat) (b :: l) = none := by
  simp [lit, List.isPrefixOf, h]

/-- Rule 2's matcher accepts a chain with any whitespace runs between the
chained calls and returns exactly the captures and remainder of the
single-line form. -/
theorem matchGetSetW_exact (ws1 ws2 p h rest : List Char)
    (hw1 : ∀ x ∈ ws1, isPySpace x = true) (hw2 : ∀ x ∈ ws2, isPySpace x = true)
    (hp : p ≠ []) (hpa : ∀ x ∈ p, notParen x = true)
    (hh : h ≠ []) (hha : ∀ x ∈ h, notParen x = true) :
    matchGetSet (chainGSW ws1 ws2 p h ++ rest) = some ((p, h), rest) := by
  have e : chainGSW ws1 ws2 p h ++ rest = chainHead ++ (ws1 ++ (".get(".data ++ (p ++ (')' ::
      (ws2 ++ (".set(".data ++ (h ++ (')' :: ';' :: rest)))))))) := by
    simp [chainGSW, List.append_assoc]
  rw [e]
  unfold matchGetSet
  simp only [chainHead, List.cons_append, List.nil_append, lit_cons_cons, lit_nil,
    star_ws_dot hw1, star_ws_dot hw2, Option.some_bind, Option.map_some',
    cls_append _ hp hpa notParen_rparen, cls_append _ hh hha notParen_rparen]

theorem len_lt_chainGSW (ws1 ws2 p h rest : List Char) :
    rest.length < (chainGSW ws1 ws2 p h ++ rest).length := by
  rw [List.length_append]
  have hpos : 0 < (chainGSW ws1 ws2 p h).length := by simp [chainGSW, chainHead]
  omega

/-- Rule 4's matcher accepts a chain with any whitespace runs between the
chained calls and returns exactly the captures and remainder of the
single-line form. -/
theorem matchPostW_exact (ws1 ws2 ws3 p h b rest : List Char)
    (hw1 : ∀ x ∈ ws1, isPySpace x = true) (hw2 : ∀ x ∈ ws2, isPySpace x = true)
    (hw3 : ∀ x ∈ ws3, isPySpace x = true)
    (hp : p ≠ []) (hpa : ∀ x ∈ p, notParen x = true)
    (hh : h ≠ []) (hha : ∀ x ∈ h, notParen x = true)
    (hb : b ≠ []) (hba : ∀ x ∈ b, notParen x = true) :
    matchPost (chainPostW ws1 ws2 ws3 p h b ++ rest) = some ((p, h, b), rest) := by
  have e : chainPostW ws1 ws2 ws3 p h b ++ rest = chainHead ++ (ws1 ++ (".post(".data ++ (p ++
      (')' :: (ws2 ++ (".set(".data ++ (h ++ (')' :: (ws3 ++ (".send(".data ++ (b ++
      (')' :: ';' :: rest)))))))))))) := by
    simp [chainPostW, List.append_assoc]
  rw [e]
  unfold matchPost
  simp only [chainHead, List.cons_append, List.nil_append, lit_cons_cons, lit_nil,
    star_ws_dot hw1, star_ws_dot hw2, star_ws_dot hw3, Option.some_bind, Option.map_some',
    cls_append _ hp hpa notParen_rparen, cls_append _ hh hha notParen_rparen,
    cls_append _ hb hba notParen_rparen]

theorem len_lt_chainPostW (ws1 ws2 ws3 p h b rest : List Char) :
    rest.length < (chainPostW ws1 ws2 ws3 p h b ++ rest).length := by
  rw [List.length_append]
  have hpos : 0 < (chainPostW ws1 ws2 ws3 p h b).length := by simp [chainPostW, chainHead]
  omega

/-- Rule 3's matcher rejects any chain with a nonempty whitespace run
between `request(app.fetch as any)` and `.get`: its pattern has no `\s*`,
so `.get` must follow the closing parenthesis immediately. -/
theorem matchGetOnly_ws_none {ws : List Char} (tail : List Char) (hne : ws ≠ [])
    (hws : ∀ x ∈ ws, isPySpace x = true) :
    matchGetOnly (chainHead ++ (ws ++ tail)) = none := by
  cases ws with
  | nil => exact absurd rfl hne
  | cons w ws2 =>
    have hw : isPySpace w = true := hws w (by simp)
    have hwd : ('.' : Char) ≠ w := by
      intro e
      rw [← e] at hw
      exact absurd hw (by decide)
    simp only [matchGetOnly, chainHead, List.cons_append, List.nil_append, lit_cons_cons,
      lit_head_ne hwd, Option.none_bind]

/-! ## Inversion of the matchers -/

/-- Inversion for rule 2's matcher: a successful match decomposes the
subject, the matched region ends in `;` right before the returned
suffix, and the captures are nonempty and free of `)`. -/
theorem matchGetSet_some {l c1 c2 rest : List Char}
    (h : matchGetSet l = some ((c1, c2), rest)) :
    (∃ p, l = p ++ ';' :: rest) ∧ c1 ≠ [] ∧ c2 ≠ [] ∧
      (∀ x ∈ c1, notParen x = true) ∧ (∀ x ∈ c2, notParen x = true) := by
  simp only [matchGetSet, Option.bind_eq_some, Option.map_eq_some'] at h
  obtain ⟨l1, hl1, l2, hl2, ⟨cap1, r1⟩, hc1, l3, hl3, l4, hl4, ⟨cap2, r2⟩, hc2, l5, hl5, hv⟩ := h
  simp only [Prod.mk.injEq] at hv
  obtain ⟨⟨rfl, rfl⟩, rfl⟩ := hv
  dsimp only at hl3 hl5
  have e1 := lit_some hl1
  have e2 := star_decomp isPySpace l1
  have e3 := lit_some hl2
  obtain ⟨e4, hc1ne, hc1all⟩ := cls_some hc1
  have e5 := lit_some hl3
  have e6 := star_decomp isPySpace l3
  have e7 := lit_some hl4
  obtain ⟨e8, hc2ne, hc2all⟩ := cls_some hc2
  have e9 := lit_some hl5
  rw [e9] at e8
  rw [e8] at e7
  rw [e7] at e6
  rw [e6] at e5
  rw [e5] at e4
  rw [e4] at e3
  rw [e3] at e2
  rw [e2] at e1
  refine ⟨⟨chainHead ++ (l1.takeWhile isPySpace ++ (".get(".data ++ (cap1 ++ (")".data ++
    (l3.takeWhile isPySpace ++ (".set(".data ++ (cap2 ++ [')']))))))), ?_⟩,
    hc1ne, hc2ne, hc1all, hc2all⟩
  rw [e1]
  simp [List.append_assoc]

/-- Inversion for rule 3's matcher. -/
theorem matchGetOnly_some {l c rest : List Char}
    (h : matchGetOnly l = some (c, rest)) :
    (∃ p, l = p ++ ';' :: rest) ∧ c ≠ [] ∧ ∀ x ∈ c, notParen x = true := by
  simp only [matchGetOnly, Option.bind_eq_some, Option.map_eq_some'] at h
  obtain ⟨l1, hl1, ⟨cap1, r1⟩, hc1, l2, hl2, hv⟩ := h
  simp only [Prod.mk.injEq] at hv
  obtain ⟨rfl, rfl⟩ := hv
  dsimp only at hl2
  have e1 := lit_some hl1
  obtain ⟨e2, hne, hall⟩ := cls_some hc1
  have e3 := lit_some hl2
  rw [e3] at e2
  rw [e2] at e1
  refine ⟨⟨"await request(app.fetch as any).get(".data ++ (cap1 ++ [')']), ?_⟩, hne, hall⟩
  rw [e1]
  simp [List.append_assoc]

/-- Inversion for rule 4's matcher. -/
theorem matchPost_some {l c1 c2 c3 rest : List Char}
    (h : matchPost l = some ((c1, c2, c3), rest)) :
    (∃ p, l = p ++ ';' :: rest) ∧ c1 ≠ [] ∧ c2 ≠ [] ∧ c3 ≠ [] ∧
      (∀ x ∈ c1, notParen x = true) ∧ (∀ x ∈ c2, notParen x = true) ∧
      (∀ x ∈ c3, notParen x = true) := by
  simp only [matchPost, Option.bind_eq_some, Option.map_eq_some'] at h
  obtain ⟨l1, hl1, l2, hl2, ⟨cap1, r1⟩, hc1, l3, hl3, l4, hl4, ⟨cap2, r2⟩, hc2, l5, hl5,
    l6, hl6, ⟨cap3, r3⟩, hc3, l7, hl7, hv⟩ := h
  simp only [Prod.mk.injEq] at hv
  obtain ⟨⟨rfl, rfl, rfl⟩, rfl⟩ := hv
  dsimp only at hl3 hl5 hl7
  have e1 := lit_some hl1
  have e2 := star_decomp isPySpace l1
  have e3 := lit_some hl2
  obtain ⟨e4, h1ne, h1all⟩ := cls_some hc1
  have e5 := lit_some hl3
  have e6 := star_decomp isPySpace l3
  have e7 := lit_some hl4
  obtain ⟨e8, h2ne, h2all⟩ := cls_some hc2
  have e9 := lit_some hl5
  have e10 := star_decomp isPySpace l5
  have e11 := lit_some hl6
  obtain ⟨e12, h3ne, h3all⟩ := cls_some hc3
  have e13 := lit_some hl7
  rw [e13] at e12
  rw [e12] at e11
  rw [e11] at e10
  rw [e10] at e9
  rw [e9] at e8
  rw [e8] at e7
  rw [e7] at e6
  rw [e6] at e5
  rw [e5] at e4
  rw [e4] at e3
  rw [e3] at e2
  rw [e2] at e1
  refine ⟨⟨chainHead ++ (l1.takeWhile isPySpace ++ (".post(".data ++ (cap1 ++ (")".data ++
    (l3.takeWhile isPySpace ++ (".set(".data ++ (cap2 ++ (")".data ++
    (l5.takeWhile isPySpace ++ (".send(".data ++ (cap3 ++ [')']))))))))))), ?_⟩,
    h1ne, h2ne, h3ne, h1all, h2all, h3all⟩
  rw [e1]
  simp [List.append_assoc]

/-! ## Claims -/

/-- Claim C1: for input `await request(app.fetch as any).get('/foo').set(myHeaders);`
the rewriter returns exactly `await app.request('/foo', { method: "GET",
headers: myHeaders });` — a GET-with-headers chain becomes a single
`app.request` call whose options object carries method `"GET"` and the
same headers expression. -/
theorem C1_get_with_headers_shape :
    convert_test_file "await request(app.fetch as any).get('/foo').set(myHeaders);" =
      "await app.request('/foo', \x7b method: \"GET\", headers: myHeaders \x7d);" := by
  rfl

/-- Claim C2: for input `await request(app.fetch as any).post('/baz').set(h).send(payload);`
the rewriter returns exactly `await app.request('/baz', { method: "POST",
headers: h, body: JSON.stringify(payload) });`. -/
theorem C2_post_with_body_shape :
    convert_test_file "await request(app.fetch as any).post('/baz').set(h).send(payload);" =
      "await app.request('/baz', \x7b method: \"POST\", headers: h, body: JSON.stringify(payload) \x7d);" := by
  rfl

/-- Claim C3: for input `await request(app.fetch as any).get('/bar');` the
rewriter returns exactly `await app.request('/bar', { method: "GET" });`. -/
theorem C3_get_without_headers_shape :
    convert_test_file "await request(app.fetch as any).get('/bar');" =
      "await app.request('/bar', \x7b method: \"GET\" \x7d);" := by
  rfl

/-- Claim C4, counterexample: the import-removal step does not delete only
the first occurrence of the import line.  On an input made of two copies
of the line, the code (`re.sub` with `count=0`) deletes both, so the
output is empty rather than one remaining copy as the claim predicts. -/
theorem C4_counterexample :
    convert_test_file
        "import request from 'supertest';\nimport request from 'supertest';\n" = "" ∧
      convert_test_file
          "import request from 'supertest';\nimport request from 'supertest';\n" ≠
        "import request from 'supertest';\n" :=
  ⟨by rfl, by decide⟩

/-- Claim C4 (amended): the import-removal step deletes every occurrence
of the legacy import line found in one left-to-right pass, not only the
first; if the line is absent the step leaves the text unchanged.  For an
input `pre ++ line ++ post` where no occurrence starts inside `pre`, the
step keeps `pre` intact, deletes that occurrence, and continues scanning
`post` (deleting any later occurrences there as well). -/
theorem C4_import_removal_amended :
    (∀ l : List Char, hasMatch matchImport l = false →
      subAll matchImport (fun _ => []) l = l) ∧
    (∀ pre post : List Char,
      (∀ i < pre.length, matchImport (pre.drop i ++ (impLine ++ post)) = none) →
      subAll matchImport (fun _ => []) (pre ++ (impLine ++ post)) =
        pre ++ subAll matchImport (fun _ => []) post) := by
  constructor
  · intro l h
    exact subAll_id_of_no_match _ _ h
  · intro pre post h
    have hlen : post.length < (impLine ++ post).length := by
      rw [List.length_append]
      have h33 : 0 < impLine.length := by decide
      omega
    rw [subAll_append _ _ pre _ h, subAll_match _ _ (matchImport_append post) hlen]
    simp

theorem C4_import_removal_amended_witness :
    subAll matchImport (fun _ => []) ("x".data ++ (impLine ++ impLine)) =
      "x".data ++ subAll matchImport (fun _ => []) impLine :=
  C4_import_removal_amended.2 "x".data impLine (by decide)

/-- Claim C5: the rewriter is the identity on any string in which none of
the four patterns has an occurrence (in particular on text already free
of the legacy idiom and on PUT/DELETE/PATCH chains), hence idempotent on
such strings. -/
theorem C5_identity_on_clean_input (s : String)
    (h1 : hasMatch matchImport s.data = false)
    (h2 : hasMatch matchGetSet s.data = false)
    (h3 : hasMatch matchGetOnly s.data = false)
    (h4 : hasMatch matchPost s.data = false) :
    convert_test_file s = s := by
  simp only [convert_test_file, convertL]
  rw [subAll_id_of_no_match _ _ h1, subAll_id_of_no_match _ _ h2,
    subAll_id_of_no_match _ _ h3, subAll_id_of_no_match _ _ h4]

theorem C5_identity_on_clean_input_witness :
    convert_test_file
        "await request(app.fetch as any).put('/x').set(h);\nawait request(app.fetch as any).delete('/y');\n" =
      "await request(app.fetch as any).put('/x').set(h);\nawait request(app.fetch as any).delete('/y');\n" :=
  C5_identity_on_clean_input _ (by decide) (by decide) (by decide) (by decide)

/-- Claim C6, counterexample: rule 3 is not tolerant of line breaks
between the chained calls — its pattern has no `\s*` at all.  The
line-broken GET-without-headers chain passes through unchanged instead of
being rewritten as the claim predicts. -/
theorem C6_counterexample :
    convert_test_file "await request(app.fetch as any)\n.get('/bar');" =
        "await request(app.fetch as any)\n.get('/bar');" ∧
      convert_test_file "await request(app.fetch as any)\n.get('/bar');" ≠
        "await app.request('/bar', \x7b method: \"GET\" \x7d);" :=
  ⟨by rfl, by decide⟩

/-- Claim C6 (amended): rules 2 and 4 tolerate whitespace, including line
breaks, between the chained calls — for every whitespace runs and every
well-formed argument texts, the pass rewrites the line-broken chain to
exactly the replacement of its single-line form (the output does not
depend on the whitespace runs, whose empty case is the single-line
chain) and resumes after it; rule 3 does not — its pattern has no `\s*`,
so its matcher rejects every chain with a nonempty whitespace run before
`.get`, and a line-broken GET-without-headers chain is left unchanged. -/
theorem C6_linebreak_tolerance_amended :
    (∀ ws1 ws2 p h rest : List Char, (∀ x ∈ ws1, isPySpace x = true) →
      (∀ x ∈ ws2, isPySpace x = true) → p ≠ [] → (∀ x ∈ p, notParen x = true) →
      h ≠ [] → (∀ x ∈ h, notParen x = true) →
      subAll matchGetSet replGetSet (chainGSW ws1 ws2 p h ++ rest) =
        replGetSet (p, h) ++ subAll matchGetSet replGetSet rest) ∧
      (∀ ws1 ws2 ws3 p h b rest : List Char, (∀ x ∈ ws1, isPySpace x = true) →
        (∀ x ∈ ws2, isPySpace x = true) → (∀ x ∈ ws3, isPySpace x = true) →
        p ≠ [] → (∀ x ∈ p, notParen x = true) → h ≠ [] → (∀ x ∈ h, notParen x = true) →
        b ≠ [] → (∀ x ∈ b, notParen x = true) →
        subAll matchPost replPost (chainPostW ws1 ws2 ws3 p h b ++ rest) =
          replPost (p, h, b) ++ subAll matchPost replPost rest) ∧
      (∀ ws tail : List Char, ws ≠ [] → (∀ x ∈ ws, isPySpace x = true) →
        matchGetOnly (chainHead ++ (ws ++ tail)) = none) := by
  refine ⟨?_, ?_, ?_⟩
  · intro ws1 ws2 p h rest hw1 hw2 hp hpa hh hha
    exact subAll_match _ _ (matchGetSetW_exact ws1 ws2 p h rest hw1 hw2 hp hpa hh hha)
      (len_lt_chainGSW ws1 ws2 p h rest)
  · intro ws1 ws2 ws3 p h b rest hw1 hw2 hw3 hp hpa hh hha hb hba
    exact subAll_match _ _
      (matchPostW_exact ws1 ws2 ws3 p h b rest hw1 hw2 hw3 hp hpa hh hha hb hba)
      (len_lt_chainPostW ws1 ws2 ws3 p h b rest)
  · intro ws tail hne hws
    exact matchGetOnly_ws_none tail hne hws

theorem C6_linebreak_tolerance_amended_witness :
    subAll matchGetSet replGetSet
        (chainGSW "\n  ".data "\n  ".data "'/foo'".data "myHeaders".data ++ []) =
      replGetSet ("'/foo'".data, "myHeaders".data) ++ subAll matchGetSet replGetSet [] ∧
    subAll matchPost replPost
        (chainPostW "\n  ".data "\n  ".data "\n  ".data "'/baz'".data "h".data "payload".data
          ++ []) =
      replPost ("'/baz'".data, "h".data, "payload".data) ++ subAll matchPost replPost [] ∧
    matchGetOnly (chainHead ++ ("\n".data ++ ".get('/bar');".data)) = none :=
  ⟨C6_linebreak_tolerance_amended.1 "\n  ".data "\n  ".data "'/foo'".data "myHeaders".data []
      (by decide) (by decide) (by decide) (by decide) (by decide) (by decide),
    C6_linebreak_tolerance_amended.2.1 "\n  ".data "\n  ".data "\n  ".data "'/baz'".data
      "h".data "payload".data [] (by decide) (by decide) (by decide) (by decide) (by decide)
      (by decide) (by decide) (by decide) (by decide),
    C6_linebreak_tolerance_amended.2.2 "\n".data ".get('/bar');".data (by decide) (by decide)⟩

/-- Claim C7: a document made of three GET-with-headers chains separated
by arbitrary text in which no pattern has an occurrence is rewritten by
converting all three chains independently, with every character outside
the three chain regions unchanged. -/
theorem C7_three_chains (p1 h1 p2 h2 p3 h3 t0 t1 t2 t3 : List Char)
    (hp1 : p1 ≠ []) (hp1a : ∀ x ∈ p1, notParen x = true)
    (hh1 : h1 ≠ []) (hh1a : ∀ x ∈ h1, notParen x = true)
    (hp2 : p2 ≠ []) (hp2a : ∀ x ∈ p2, notParen x = true)
    (hh2 : h2 ≠ []) (hh2a : ∀ x ∈ h2, notParen x = true)
    (hp3 : p3 ≠ []) (hp3a : ∀ x ∈ p3, notParen x = true)
    (hh3 : h3 ≠ []) (hh3a : ∀ x ∈ h3, notParen x = true)
    (hImp : hasMatch matchImport
      (t0 ++ (chainGS p1 h1 ++ (t1 ++ (chainGS p2 h2 ++ (t2 ++ (chainGS p3 h3 ++ t3)))))) = false)
    (ht0 : ∀ i < t0.length, matchGetSet
      (t0.drop i ++ (chainGS p1 h1 ++ (t1 ++ (chainGS p2 h2 ++ (t2 ++ (chainGS p3 h3 ++ t3)))))) = none)
    (ht1 : ∀ i < t1.length, matchGetSet
      (t1.drop i ++ (chainGS p2 h2 ++ (t2 ++ (chainGS p3 h3 ++ t3)))) = none)
    (ht2 : ∀ i < t2.length, matchGetSet (t2.drop i ++ (chainGS p3 h3 ++ t3)) = none)
    (ht3 : hasMatch matchGetSet t3 = false)
    (hG : hasMatch matchGetOnly
      (t0 ++ (outGS p1 h1 ++ (t1 ++ (outGS p2 h2 ++ (t2 ++ (outGS p3 h3 ++ t3)))))) = false)
    (hP : hasMatch matchPost
      (t0 ++ (outGS p1 h1 ++ (t1 ++ (outGS p2 h2 ++ (t2 ++ (outGS p3 h3 ++ t3)))))) = false) :
    convertL (t0 ++ (chainGS p1 h1 ++ (t1 ++ (chainGS p2 h2 ++ (t2 ++ (chainGS p3 h3 ++ t3)))))) =
      t0 ++ (outGS p1 h1 ++ (t1 ++ (outGS p2 h2 ++ (t2 ++ (outGS p3 h3 ++ t3))))) := by
  simp only [convertL]
  rw [subAll_id_of_no_match _ _ hImp]
  rw [subAll_append _ _ t0 _ ht0]
  rw [subAll_match _ _ (matchGetSet_chainGS _ hp1 hp1a hh1 hh1a) (len_lt_chainGS p1 h1 _)]
  rw [subAll_append _ _ t1 _ ht1]
  rw [subAll_match _ _ (matchGetSet_chainGS _ hp2 hp2a hh2 hh2a) (len_lt_chainGS p2 h2 _)]
  rw [subAll_append _ _ t2 _ ht2]
  rw [subAll_match _ _ (matchGetSet_chainGS _ hp3 hp3a hh3 hh3a) (len_lt_chainGS p3 h3 _)]
  rw [subAll_id_of_no_match _ _ ht3]
  simp only [outGS] at hG hP
  rw [subAll_id_of_no_match _ _ hG, subAll_id_of_no_match _ _ hP]
  simp only [outGS]

theorem C7_three_chains_witness :
    convertL ("// t0\n".data ++ (chainGS "'/a'".data "hA".data ++ ("\nconst x = 1;\n".data ++
        (chainGS "'/b'".data "hB".data ++ ("\n// mid\n".data ++
        (chainGS "'/c'".data "hC".data ++ "\n// end\n".data)))))) =
      "// t0\n".data ++ (outGS "'/a'".data "hA".data ++ ("\nconst x = 1;\n".data ++
        (outGS "'/b'".data "hB".data ++ ("\n// mid\n".data ++
        (outGS "'/c'".data "hC".data ++ "\n// end\n".data))))) :=
  C7_three_chains "'/a'".data "hA".data "'/b'".data "hB".data "'/c'".data "hC".data
    "// t0\n".data "\nconst x = 1;\n".data "\n// mid\n".data "\n// end\n".data
    (by decide) (by decide) (by decide) (by decide) (by decide) (by decide)
    (by decide) (by decide) (by decide) (by decide) (by decide) (by decide)
    (by decide) (by decide) (by decide) (by decide) (by decide) (by decide) (by decide)

/-- Claim C8: each of the three conversion rules matches only chains
terminated by a semicolon immediately after the final closing
parenthesis — every successful match's region ends with `;` right before
the returned suffix — and a recognized chain lacking the trailing
semicolon (for example `await request(app.fetch as any).get('/bar')`
followed by a newline) passes through the whole rewriter unchanged. -/
theorem C8_semicolon_required :
    (∀ l c1 c2 rest, matchGetSet l = some ((c1, c2), rest) → ∃ p, l = p ++ ';' :: rest) ∧
      (∀ l c rest, matchGetOnly l = some (c, rest) → ∃ p, l = p ++ ';' :: rest) ∧
      (∀ l c1 c2 c3 rest, matchPost l = some ((c1, c2, c3), rest) →
        ∃ p, l = p ++ ';' :: rest) ∧
      convert_test_file "await request(app.fetch as any).get('/bar')\n" =
        "await request(app.fetch as any).get('/bar')\n" :=
  ⟨fun _ _ _ _ h => (matchGetSet_some h).1,
    fun _ _ _ h => (matchGetOnly_some h).1,
    fun _ _ _ _ _ h => (matchPost_some h).1,
    by rfl⟩

theorem C8_semicolon_required_witness :
    ∃ p, "await request(app.fetch as any).get('/bar').set(hs);".data = p ++ ';' :: [] :=
  C8_semicolon_required.1 _ "'/bar'".data "hs".data [] (by rfl)

/-- Claim C9, counterexample: a chain whose argument text contains `)`
is not always left unchanged.  For
`await request(app.fetch as any).get(f(");"));` rule 3 matches with the
mis-scoped capture `f("` — the `);` inside the string literal completes
the pattern — and the chain is rewritten to
`await app.request(f(", { method: "GET" });"));`, refuting the claim that
such chains pass through entirely unchanged. -/
theorem C9_counterexample :
    convert_test_file "await request(app.fetch as any).get(f(\");\"));" =
        "await app.request(f(\", \x7b method: \"GET\" \x7d);\"));" ∧
      convert_test_file "await request(app.fetch as any).get(f(\");\"));" ≠
        "await request(app.fetch as any).get(f(\");\"));" :=
  ⟨by rfl, by decide⟩

/-- Claim C9 (amended): a capture of any rule never contains a closing
parenthesis, so no rule ever matches an argument text containing `)` as
a whole capture.  A chain whose argument text contains `)` is therefore
never rewritten with the full argument in the capture, but it is not
always left unchanged: when the text before the first `)` cannot
complete the pattern, the chain passes through the whole rewriter
byte-identical (for example
`await request(app.fetch as any).get(f('/x'));`); when it can, the rule
matches with a shorter mis-scoped capture and rewrites part of the chain
(for example `await request(app.fetch as any).get(f(");"));` becomes
`await app.request(f(", { method: "GET" });"));`). -/
theorem C9_paren_free_captures :
    (∀ l c1 c2 rest, matchGetSet l = some ((c1, c2), rest) → ')' ∉ c1 ∧ ')' ∉ c2) ∧
      (∀ l c rest, matchGetOnly l = some (c, rest) → ')' ∉ c) ∧
      (∀ l c1 c2 c3 rest, matchPost l = some ((c1, c2, c3), rest) →
        ')' ∉ c1 ∧ ')' ∉ c2 ∧ ')' ∉ c3) ∧
      convert_test_file "await request(app.fetch as any).get(f('/x'));" =
        "await request(app.fetch as any).get(f('/x'));" ∧
      convert_test_file "await request(app.fetch as any).get(f(\");\"));" =
        "await app.request(f(\", \x7b method: \"GET\" \x7d);\"));" := by
  refine ⟨?_, ?_, ?_, by rfl, by rfl⟩
  · intro l c1 c2 rest h
    obtain ⟨-, -, -, ha1, ha2⟩ := matchGetSet_some h
    exact ⟨not_paren_mem ha1, not_paren_mem ha2⟩
  · intro l c rest h
    obtain ⟨-, -, ha⟩ := matchGetOnly_some h
    exact not_paren_mem ha
  · intro l c1 c2 c3 rest h
    obtain ⟨-, -, -, -, ha1, ha2, ha3⟩ := matchPost_some h
    exact ⟨not_paren_mem ha1, not_paren_mem ha2, not_paren_mem ha3⟩

theorem C9_paren_free_captures_witness :
    ')' ∉ "'/bar'".data ∧ ')' ∉ "hs".data :=
  C9_paren_free_captures.1
    "await request(app.fetch as any).get('/bar').set(hs);".data
    "'/bar'".data "hs".data [] (by rfl)

/-- Claim C10: when reading the hardcoded input fails, the run terminates
before any write — nothing is written to the output path and no
confirmation is printed; only when the read succeeds is the full
transformed text written and the single confirmation line emitted. -/
theorem C10_main_behavior (input : Option String) :
    (input = none → main_run input = ⟨none, none⟩) ∧
      (∀ content, input = some content →
        main_run input = ⟨some (convert_test_file content), some "Conversion complete!"⟩) := by
  constructor
  · intro h
    subst h
    rfl
  · intro c h
    subst h
    rfl

theorem C10_main_behavior_witness :
    main_run none = ⟨none, none⟩ ∧
      main_run (some "x") = ⟨some (convert_test_file "x"), some "Conversion complete!"⟩ :=
  ⟨(C10_main_behavior none).1 rfl, (C10_main_behavior (some "x")).2 "x" rfl⟩

end ConvertTest
